import Mathlib

/-!
Verification of the `arxiv_scraper` pipeline (`arxiv_scraper.py`).

Shallow embedding conventions used throughout this development:

* Calendar dates are modelled as integers (day numbers).  The Python code
  stores dates as fixed-length ISO-8601 strings (`"2024-01-01"`) and compares
  them lexicographically; on such strings the lexicographic order coincides
  with the chronological order, so an order-isomorphic integer model is used.
  For `start_end_dates` the day-number convention is: `weekday d = d % 7`,
  with day number `d ≡ 0 (mod 7)` a Monday and `d ≡ 6 (mod 7)` a Sunday,
  matching Python's `date.weekday()` (Monday = 0 ... Sunday = 6).
* Python sets of category codes are modelled as lists; the only operation the
  code performs on them is an emptiness test of an intersection.
* The unbounded `while True:` pagination loop of `retrieve_arxiv_data` is
  modelled with an explicit fuel parameter; running out of fuel is a distinct
  result constructor, as is the uncaught `IndexError` raised by the
  `arxiv_papers[-1]` access on an empty accumulator.
* The arXiv HTTP API is modelled as a list of already-parsed entries sorted
  descending by update date (`sortBy=lastUpdatedDate&sortOrder=descending`);
  page `i` of size `per` is the slice `entries[i*per : (i+1)*per]`, and pages
  past the end of the feed are empty, exactly as the real feed behaves.
-/

/-! ### `clean_wrapped_text` (arxiv_scraper.py lines 12-17)

`output = text.replace('\n', ' ')`, then four passes of
`output = output.replace('  ', ' ')`, then `output.strip()`. -/

/-- The whitespace class stripped by Python's `str.strip()` (ASCII part). -/
def pySpace (c : Char) : Bool :=
  c = ' ' || c = '\t' || c = '\n' || c = '\r' || c = '\x0b' || c = '\x0c'

/-- `text.replace('\n', ' ')`. -/
def replaceNewlines (l : List Char) : List Char :=
  l.map fun c => if c = '\n' then ' ' else c

/-- One pass of `output.replace('  ', ' ')`: scan left to right, replacing
non-overlapping occurrences of two spaces by one space. -/
def collapseOnce : List Char → List Char
  | c :: d :: rest =>
    if c = ' ' && d = ' ' then ' ' :: collapseOnce rest
    else c :: collapseOnce (d :: rest)
  | l => l

/-- Remove trailing `pySpace` characters (the right half of `str.strip()`). -/
def dropTrailingSpaces : List Char → List Char
  | [] => []
  | c :: rest =>
    match dropTrailingSpaces rest with
    | [] => if pySpace c then [] else [c]
    | r => c :: r

/-- `output.strip()`: drop leading and trailing whitespace. -/
def pyStrip (l : List Char) : List Char :=
  (dropTrailingSpaces l).dropWhile pySpace

/-- `clean_wrapped_text` from the source: replace newlines by spaces, four
double-space collapsing passes, then strip. -/
def clean_wrapped_text (s : String) : String :=
  String.mk (pyStrip (collapseOnce (collapseOnce (collapseOnce (collapseOnce
    (replaceNewlines s.data))))))

/-- `True` when the first `k` characters of `l` exist and are all spaces. -/
def spacePref : Nat → List Char → Bool
  | 0, _ => true
  | _ + 1, [] => false
  | k + 1, c :: rest => c = ' ' && spacePref k rest

/-- `True` when `l` contains `k` consecutive spaces somewhere. -/
def hasSpaceRun (k : Nat) : List Char → Bool
  | [] => k == 0
  | c :: rest => spacePref k (c :: rest) || hasSpaceRun k rest

/-- `True` when `l` contains a newline character. -/
def hasNewline (l : List Char) : Bool := l.any fun c => c = '\n'

/-- `True` when neither end of `l` is a `pySpace` character. -/
def pyTrimmed (l : List Char) : Bool :=
  (match l.head? with
   | none => true
   | some c => !pySpace c) &&
  (match l.getLast? with
   | none => true
   | some c => !pySpace c)

/-! ### `start_end_dates` (lines 19-26)

`end_date = date.today() - timedelta(date.today().weekday() + 1)`;
`start_date = end_date - timedelta(6)`.  Day-number model with
`weekday d = d % 7`, Monday = 0. -/

def start_end_dates (today : Int) : Int × Int :=
  let end_date := today - (today % 7 + 1)
  (end_date - 6, end_date)

/-! ### Paper records and the fetcher (lines 28-71) -/

/-- One parsed arXiv feed entry / accumulated paper record (the dictionary
built at lines 57-65: Authors, Title, Updated, Published, Categories,
Summary, Pdf Link). -/
structure Entry where
  authors : List String
  title : String
  updated : Int
  published : Int
  categories : List String
  summary : String
  pdfLink : String
deriving DecidableEq

/-- `len(target_categories.intersection(cats)) > 0` (line 56). -/
def matchesTargets (targets : List String) (e : Entry) : Bool :=
  e.categories.any fun c => targets.contains c

/-- Page `i` of the descending-sorted feed: the request at lines 41-47 uses
`start = i*per_page`, `max_results = per_page`. -/
def pageOf (entries : List Entry) (per i : Nat) : List Entry :=
  (entries.drop (i * per)).take per

/-- Result of a run of the fetcher.  `ok papers pages` is a normal return
with the accumulated list and the number of pages requested; `indexError`
is the uncaught exception raised by `arxiv_papers[-1]` on an empty list;
`outOfFuel` means the modelled run did not terminate within the fuel. -/
inductive FetchResult where
  | ok (papers : List Entry) (pages : Nat)
  | indexError
  | outOfFuel
deriving DecidableEq

/-- The `while True:` loop body of `retrieve_arxiv_data` (lines 39-70):
request page `i`, append the entries whose category set intersects the
targets, then test `arxiv_papers[-1]['Updated'] < start_date` to break. -/
def fetchLoop (entries : List Entry) (targets : List String) (startDate : Int)
    (per : Nat) : Nat → Nat → List Entry → FetchResult
  | 0, _, _ => .outOfFuel
  | fuel + 1, i, acc =>
    let acc2 := acc ++ (pageOf entries per i).filter (matchesTargets targets)
    match acc2.getLast? with
    | none => .indexError
    | some last =>
      if last.updated < startDate then .ok acc2 (i + 1)
      else fetchLoop entries targets startDate per fuel (i + 1) acc2

/-- `retrieve_arxiv_data(target_categories, start_date, per_page, ...)`,
starting at page 0 with an empty accumulator (lines 35-36). -/
def retrieve_arxiv_data (entries : List Entry) (targets : List String)
    (startDate : Int) (per fuel : Nat) : FetchResult :=
  fetchLoop entries targets startDate per fuel 0 []

/-! ### The formatter `markdown_text` (lines 73-100) -/

/-- `category_lookups[c]` guarded by `if c in category_lookups` (line 94):
the dictionary is modelled as an association list. -/
def lookupGet (lookups : List (String × String)) (c : String) : Option String :=
  (lookups.find? fun kv => kv.1 == c).map fun kv => kv.2

/-- `[category_lookups[c] for c in paper['Categories'] if c in category_lookups]`. -/
def resolvedCategories (lookups : List (String × String)) (cats : List String) :
    List String :=
  cats.filterMap fun c => lookupGet lookups c

/-- The inclusion test at line 90:
`start_date <= paper['Updated'] and end_date > paper['Updated']`. -/
def inReportWindow (startDate endDate : Int) (p : Entry) : Bool :=
  decide (startDate ≤ p.updated) && decide (endDate > p.updated)

/-- Stable descending insertion by `published`: the element being inserted
stops in front of the first element whose key is `≤` its own, so elements
with equal keys keep their original relative order. -/
def insertDesc (p : Entry) : List Entry → List Entry
  | [] => [p]
  | q :: qs =>
    if q.published ≤ p.published then p :: q :: qs
    else q :: insertDesc p qs

/-- `sorted(arxiv_papers, key=lambda d: d['Published'], reverse=True)`
(line 89).  Python's `sorted` is a stable sort; with `reverse=True` it
produces the unique arrangement that is descending in the key and keeps
elements with equal keys in input order, which is what this stable
insertion sort produces. -/
def sortByPublishedDesc : List Entry → List Entry
  | [] => []
  | p :: ps => insertDesc p (sortByPublishedDesc ps)

/-- The papers that contribute blocks to the rendered document: sorted
descending by `Published`, then kept only when inside the report window
(the loop at lines 89-98). -/
def renderedPapers (papers : List Entry) (startDate endDate : Int) :
    List Entry :=
  (sortByPublishedDesc papers).filter (inReportWindow startDate endDate)

/-- The markdown blocks appended for one included paper (lines 92-98). -/
def paperBlocks (lookups : List (String × String)) (p : Entry) : List String :=
  ["### " ++ p.title,
   "**Authors**: " ++ String.intercalate ", " p.authors,
   "**Categories**: " ++
     String.intercalate ", " (resolvedCategories lookups p.categories),
   "**PDF**: " ++ p.pdfLink,
   "**Dates**: originally published: " ++ toString p.published ++
     ", updated: " ++ toString p.updated,
   "**Summary**: " ++ p.summary,
   ""]

/-- `markdown_text(arxiv_papers, category_lookups, start_date, end_date)`:
title plus the `'\n\n'`-joined blocks (lines 83-100).  Apostrophes in the
fixed preamble are written with `\x27` escapes. -/
def markdown_text (papers : List Entry) (lookups : List (String × String))
    (startDate endDate : Int) : String × String :=
  let title := "Quant Finance Arxiv submissions " ++ toString startDate ++
    " - " ++ toString endDate
  let header := ["# " ++ title,
    "This is your weekly snap of quant finance submissions to the Arxiv. Papers are sorted in reverse chronological order of the *original* publication date. i.e. the newest papers are at the top, revisions are lower down the list.",
    "If any paper take your fancy, you\x27re encouraged to submit a link post to the subreddit, and start the discussion in the comments. Or in this thread, what do I care I\x27m not your boss."]
  (title, String.intercalate "\n\n"
    (header ++ (renderedPapers papers startDate endDate).flatMap (paperBlocks lookups)))

/-! ### The `main` pipeline (lines 146-176) -/

/-- The six-field `reddit_data` mapping built from the CLI flags
(lines 194-201); every flag defaults to `None` when absent. -/
structure RedditData where
  app_name : Option String
  app_id : Option String
  app_secret : Option String
  user_name : Option String
  user_password : Option String
  subreddit : Option String
deriving DecidableEq

/-- `reddit_data.values()` in insertion order. -/
def redditDataValues (d : RedditData) : List (Option String) :=
  [d.app_name, d.app_id, d.app_secret, d.user_name, d.user_password,
   d.subreddit]

/-- `all(v is not None for v in reddit_data.values())` (line 160). -/
def allRedditPresent (d : RedditData) : Bool :=
  (redditDataValues d).all fun v => v.isSome

/-- Outcomes of the external HTTP calls made by the publisher: whether the
token endpoint and the submit endpoint answer with a success status
(`raise_for_status` raises otherwise, lines 119 and 143). -/
structure World where
  authOk : Bool
  submitOk : Bool
deriving DecidableEq

/-- Observable effects of one run of `main`: whether the token endpoint was
contacted, whether a post submission was attempted, the local file written
(name and contents) if the run got that far, and whether the run died with
an uncaught exception. -/
structure RunTrace where
  tokenRequested : Bool
  submitAttempted : Bool
  fileWritten : Option (String × String)
  fatal : Bool
deriving DecidableEq

/-- `f'arxiv_submissions_{start_date}_{end_date}.md'` (line 173). -/
def fileName (startDate endDate : Int) : String :=
  "arxiv_submissions_" ++ toString startDate ++ "_" ++ toString endDate ++ ".md"

/-- Lines 152-154: when either date flag is missing both dates are replaced
by the previous-ISO-week defaults. -/
def resolveDates (startArg endArg : Option Int) (today : Int) : Int × Int :=
  match startArg, endArg with
  | some s, some e => (s, e)
  | _, _ => start_end_dates today

/-- `main(target_categories, category_lookups, reddit_data, start_date,
end_date)` (lines 146-176): resolve the window, fetch, format, publish when
all six reddit fields are populated (aborting on an HTTP failure of either
publisher call), and finally write the markdown file.  The file write at
lines 173-176 happens only when control reaches it: an exception in
`retrieve_arxiv_data`, `reddit_authorize` or `reddit_submit_post`
propagates out of `main` first. -/
def mainRun (w : World) (entries : List Entry) (targets : List String)
    (lookups : List (String × String)) (reddit : RedditData)
    (startArg endArg : Option Int) (today : Int) (fuel : Nat) : RunTrace :=
  let sd := (resolveDates startArg endArg today).1
  let ed := (resolveDates startArg endArg today).2
  match retrieve_arxiv_data entries targets sd 100 fuel with
  | .ok papers _ =>
    let text := (markdown_text papers lookups sd ed).2
    if allRedditPresent reddit then
      if w.authOk then
        if w.submitOk then
          ⟨true, true, some (fileName sd ed, text), false⟩
        else ⟨true, true, none, true⟩
      else ⟨true, false, none, true⟩
    else ⟨false, false, some (fileName sd ed, text), false⟩
  | _ => ⟨false, false, none, true⟩

/-! ### Lemmas about the text cleanup -/

theorem hasSpaceRun_zero (l : List Char) : hasSpaceRun 0 l = true := by
  cases l <;> simp [hasSpaceRun, spacePref]

theorem hasSpaceRun_tail (k : Nat) (c : Char) (rest : List Char)
    (h : hasSpaceRun k rest = true) : hasSpaceRun k (c :: rest) = true := by
  simp [hasSpaceRun, h]

theorem hasSpaceRun_of_spacePref (k : Nat) (l : List Char)
    (h : spacePref k l = true) : hasSpaceRun k l = true := by
  cases l with
  | nil =>
    cases k with
    | zero => simp [hasSpaceRun]
    | succ k => simp [spacePref] at h
  | cons c rest => simp [hasSpaceRun, h]

theorem collapseOnce_cons_of_ne (d : Char) (rest : List Char) (hd : ¬ d = ' ') :
    ∃ t, collapseOnce (d :: rest) = d :: t := by
  cases rest with
  | nil => exact ⟨[], rfl⟩
  | cons e r =>
    refine ⟨collapseOnce (e :: r), ?_⟩
    simp [collapseOnce, hd]

theorem spacePref_collapseOnce (l : List Char) :
    ∀ k, spacePref (k + 1) (collapseOnce l) = true →
      spacePref (2 * k + 1) l = true := by
  induction l using collapseOnce.induct with
  | case1 c d rest h ih =>
    intro k hk
    have hcd : c = ' ' ∧ d = ' ' := by simpa using h
    obtain ⟨hc, hd⟩ := hcd
    rw [collapseOnce, if_pos h] at hk
    cases k with
    | zero => simp [spacePref, hc]
    | succ j =>
      have hj : spacePref (j + 1) (collapseOnce rest) = true := by
        simpa [spacePref] using hk
      have hr := ih j hj
      have harith : 2 * (j + 1) + 1 = (2 * j + 1) + 1 + 1 := by omega
      rw [harith]
      simp [spacePref, hc, hd, hr]
  | case2 c d rest h ih =>
    intro k hk
    rw [collapseOnce, if_neg (by simp [h])] at hk
    cases k with
    | zero =>
      have hc : c = ' ' := by simpa [spacePref] using hk
      simp [spacePref, hc]
    | succ j =>
      have hcp : c = ' ' ∧ spacePref (j + 1) (collapseOnce (d :: rest)) = true := by
        simpa [spacePref] using hk
      have hd : ¬ d = ' ' := by
        intro hd
        rw [hcp.1, hd] at h
        simp at h
      obtain ⟨t, ht⟩ := collapseOnce_cons_of_ne d rest hd
      have hpk := hcp.2
      rw [ht] at hpk
      simp [spacePref, hd] at hpk
  | case3 l h1 =>
    intro k hk
    match l, hk with
    | [], hk => cases k <;> simp [spacePref, collapseOnce] at hk ⊢
    | [c], hk =>
      have hl : collapseOnce [c] = [c] := rfl
      rw [hl] at hk
      cases k with
      | zero => simpa [spacePref] using hk
      | succ j => simp [spacePref] at hk
    | c :: d :: rest, hk => exact absurd rfl (h1 c d rest)

theorem hasSpaceRun_collapseOnce (l : List Char) :
    ∀ k, hasSpaceRun (k + 1) (collapseOnce l) = true →
      hasSpaceRun (2 * k + 1) l = true := by
  induction l using collapseOnce.induct with
  | case1 c d rest h ih =>
    intro k hk
    have hcd : c = ' ' ∧ d = ' ' := by simpa using h
    obtain ⟨hc, hd⟩ := hcd
    rw [collapseOnce, if_pos h, hasSpaceRun] at hk
    rcases Bool.or_eq_true_iff.mp hk with hpref | hrun
    · cases k with
      | zero => simp [hasSpaceRun, spacePref, hc]
      | succ j =>
        have hj : spacePref (j + 1) (collapseOnce rest) = true := by
          simpa [spacePref] using hpref
        have hr := spacePref_collapseOnce rest j hj
        apply hasSpaceRun_of_spacePref
        have harith : 2 * (j + 1) + 1 = (2 * j + 1) + 1 + 1 := by omega
        rw [harith]
        simp [spacePref, hc, hd, hr]
    · exact hasSpaceRun_tail _ _ _ (hasSpaceRun_tail _ _ _ (ih k hrun))
  | case2 c d rest h ih =>
    intro k hk
    rw [collapseOnce, if_neg (by simp [h]), hasSpaceRun] at hk
    rcases Bool.or_eq_true_iff.mp hk with hpref | hrun
    · cases k with
      | zero =>
        have hc : c = ' ' := by simpa [spacePref] using hpref
        simp [hasSpaceRun, spacePref, hc]
      | succ j =>
        have hcp : c = ' ' ∧ spacePref (j + 1) (collapseOnce (d :: rest)) = true := by
          simpa [spacePref] using hpref
        have hd : ¬ d = ' ' := by
          intro hd
          rw [hcp.1, hd] at h
          simp at h
        obtain ⟨t, ht⟩ := collapseOnce_cons_of_ne d rest hd
        have hpk := hcp.2
        rw [ht] at hpk
        simp [spacePref, hd] at hpk
    · exact hasSpaceRun_tail _ _ _ (ih k hrun)
  | case3 l h1 =>
    intro k hk
    match l, hk with
    | [], hk =>
      have hl : collapseOnce [] = [] := rfl
      rw [hl] at hk
      simp [hasSpaceRun] at hk
    | [c], hk =>
      have hl : collapseOnce [c] = [c] := rfl
      rw [hl, hasSpaceRun] at hk
      rcases Bool.or_eq_true_iff.mp hk with hpref | hrun
      · cases k with
        | zero =>
          have hc : c = ' ' := by simpa [spacePref] using hpref
          simp [hasSpaceRun, spacePref, hc]
        | succ j => simp [spacePref] at hpref
      · simp [hasSpaceRun] at hrun
    | c :: d :: rest, hk => exact absurd rfl (h1 c d rest)

theorem hasSpaceRun_two_of_four (x : List Char)
    (h : hasSpaceRun 2 (collapseOnce (collapseOnce (collapseOnce
      (collapseOnce x)))) = true) :
    hasSpaceRun 17 x = true := by
  have h3 := hasSpaceRun_collapseOnce _ 1 h
  have h5 := hasSpaceRun_collapseOnce _ 2 h3
  have h9 := hasSpaceRun_collapseOnce _ 4 h5
  have h17 := hasSpaceRun_collapseOnce _ 8 h9
  exact h17

theorem spacePref_dropTrailing (l : List Char) :
    ∀ k, spacePref k (dropTrailingSpaces l) = true → spacePref k l = true := by
  induction l with
  | nil => exact fun k hk => hk
  | cons c rest ih =>
    intro k hk
    cases k with
    | zero => rfl
    | succ j =>
      rw [dropTrailingSpaces] at hk
      cases hr : dropTrailingSpaces rest with
      | nil =>
        rw [hr] at hk
        by_cases hc : pySpace c
        · simp [hc, spacePref] at hk
        · simp [hc, spacePref] at hk
          have : pySpace c = true := by simp [pySpace, hk.1]
          exact absurd this hc
      | cons r rs =>
        rw [hr] at hk
        have hk2 : c = ' ' ∧ spacePref j (r :: rs) = true := by
          simpa [spacePref] using hk
        have hj : spacePref j rest = true := by
          apply ih
          rw [hr]
          exact hk2.2
        simp [spacePref, hk2.1, hj]

theorem hasSpaceRun_dropTrailing (l : List Char) :
    ∀ k, hasSpaceRun k (dropTrailingSpaces l) = true → hasSpaceRun k l = true := by
  induction l with
  | nil => exact fun k hk => hk
  | cons c rest ih =>
    intro k hk
    cases k with
    | zero => exact hasSpaceRun_zero _
    | succ j =>
      rw [dropTrailingSpaces] at hk
      cases hr : dropTrailingSpaces rest with
      | nil =>
        rw [hr] at hk
        by_cases hc : pySpace c
        · simp [hc, hasSpaceRun] at hk
        · simp [hc, hasSpaceRun, spacePref] at hk
          have : pySpace c = true := by simp [pySpace, hk.1]
          exact absurd this hc
      | cons r rs =>
        rw [hr] at hk
        rw [hasSpaceRun] at hk ⊢
        rcases Bool.or_eq_true_iff.mp hk with hpref | hrun
        · have hk2 : c = ' ' ∧ spacePref j (r :: rs) = true := by
            simpa [spacePref] using hpref
          have hj : spacePref j rest = true := by
            apply spacePref_dropTrailing
            rw [hr]
            exact hk2.2
          apply Bool.or_eq_true_iff.mpr
          left
          simp [spacePref, hk2.1, hj]
        · apply Bool.or_eq_true_iff.mpr
          right
          apply ih
          rw [hr]
          exact hrun

theorem hasSpaceRun_dropWhile (p : Char → Bool) (l : List Char) (k : Nat)
    (h : hasSpaceRun k (l.dropWhile p) = true) : hasSpaceRun k l = true := by
  induction l with
  | nil => simpa using h
  | cons c rest ih =>
    rw [List.dropWhile_cons] at h
    by_cases hc : p c
    · rw [if_pos (by simp [hc])] at h
      exact hasSpaceRun_tail _ _ _ (ih h)
    · rwa [if_neg (by simp [hc])] at h

theorem hasSpaceRun_pyStrip (l : List Char) (k : Nat)
    (h : hasSpaceRun k (pyStrip l) = true) : hasSpaceRun k l = true :=
  hasSpaceRun_dropTrailing l k (hasSpaceRun_dropWhile pySpace _ k h)

theorem mem_collapseOnce (l : List Char) : ∀ x, x ∈ collapseOnce l → x ∈ l := by
  induction l using collapseOnce.induct with
  | case1 c d rest h ih =>
    intro x hx
    have hcd : c = ' ' ∧ d = ' ' := by simpa using h
    rw [collapseOnce, if_pos h] at hx
    rcases List.mem_cons.mp hx with rfl | hx
    · rw [hcd.1]
      exact List.mem_cons_self _ _
    · exact List.mem_cons_of_mem _ (List.mem_cons_of_mem _ (ih x hx))
  | case2 c d rest h ih =>
    intro x hx
    rw [collapseOnce, if_neg (by simp [h])] at hx
    rcases List.mem_cons.mp hx with rfl | hx
    · exact List.mem_cons_self _ _
    · exact List.mem_cons_of_mem _ (ih x hx)
  | case3 l h1 =>
    intro x hx
    match l, hx with
    | [], hx => exact hx
    | [c], hx => exact hx
    | c :: d :: rest, hx => exact absurd rfl (h1 c d rest)

theorem mem_dropTrailing (l : List Char) : ∀ x, x ∈ dropTrailingSpaces l → x ∈ l := by
  induction l with
  | nil => exact fun x hx => hx
  | cons c rest ih =>
    intro x hx
    rw [dropTrailingSpaces] at hx
    cases hr : dropTrailingSpaces rest with
    | nil =>
      rw [hr] at hx
      by_cases hc : pySpace c
      · simp [hc] at hx
      · simp [hc] at hx
        simp [hx]
    | cons r rs =>
      rw [hr] at hx
      rcases List.mem_cons.mp hx with rfl | hx
      · exact List.mem_cons_self _ _
      · apply List.mem_cons_of_mem
        apply ih
        rw [hr]
        exact hx

theorem mem_replaceNewlines_ne (l : List Char) :
    ∀ x, x ∈ replaceNewlines l → ¬ x = '\n' := by
  intro x hx
  obtain ⟨a, _, ha⟩ := List.mem_map.mp hx
  by_cases hn : a = '\n'
  · rw [if_pos hn] at ha
    rw [← ha]
    decide
  · rw [if_neg hn] at ha
    rw [← ha]
    exact hn

theorem clean_no_newline (s : String) :
    hasNewline (clean_wrapped_text s).data = false := by
  rw [hasNewline, List.any_eq_false]
  intro x hx
  simp only [decide_eq_true_eq]
  apply mem_replaceNewlines_ne s.data
  have hx2 : x ∈ pyStrip (collapseOnce (collapseOnce (collapseOnce (collapseOnce
      (replaceNewlines s.data))))) := hx
  have h1 : x ∈ dropTrailingSpaces (collapseOnce (collapseOnce (collapseOnce
      (collapseOnce (replaceNewlines s.data))))) :=
    List.Sublist.mem hx2 (List.dropWhile_sublist _)
  exact mem_collapseOnce _ _ (mem_collapseOnce _ _ (mem_collapseOnce _ _
    (mem_collapseOnce _ _ (mem_dropTrailing _ _ h1))))

theorem head_dropWhile_false (p : Char → Bool) (l : List Char) :
    ∀ c, (l.dropWhile p).head? = some c → p c = false := by
  induction l with
  | nil => intro c hc; simp at hc
  | cons a rest ih =>
    intro c hc
    rw [List.dropWhile_cons] at hc
    by_cases ha : p a
    · rw [if_pos (by simp [ha])] at hc
      exact ih c hc
    · rw [if_neg (by simp [ha])] at hc
      have : a = c := by simpa using hc
      rw [← this]
      simpa using ha

theorem getLast_dropWhile_eq (p : Char → Bool) (l : List Char) :
    ∀ c, (l.dropWhile p).getLast? = some c → l.getLast? = some c := by
  induction l with
  | nil => intro c hc; simp at hc
  | cons a rest ih =>
    intro c hc
    rw [List.dropWhile_cons] at hc
    by_cases ha : p a
    · rw [if_pos (by simp [ha])] at hc
      have hr := ih c hc
      cases rest with
      | nil => simp at hr
      | cons r rs => rw [List.getLast?_cons_cons]; exact hr
    · rwa [if_neg (by simp [ha])] at hc

theorem getLast_dropTrailing_not_space (l : List Char) :
    ∀ c, (dropTrailingSpaces l).getLast? = some c → pySpace c = false := by
  induction l with
  | nil => intro c hc; simp [dropTrailingSpaces] at hc
  | cons a rest ih =>
    intro c hc
    rw [dropTrailingSpaces] at hc
    cases hr : dropTrailingSpaces rest with
    | nil =>
      rw [hr] at hc
      by_cases ha : pySpace a
      · rw [if_pos ha] at hc
        simp at hc
      · rw [if_neg ha] at hc
        have : a = c := by simpa using hc
        rw [← this]
        simpa using ha
    | cons r rs =>
      rw [hr] at hc
      rw [List.getLast?_cons_cons] at hc
      apply ih
      rw [hr]
      exact hc

theorem pyTrimmed_pyStrip (l : List Char) : pyTrimmed (pyStrip l) = true := by
  have h1 : ∀ c, (pyStrip l).head? = some c → pySpace c = false :=
    fun c hc => head_dropWhile_false pySpace _ c hc
  have h2 : ∀ c, (pyStrip l).getLast? = some c → pySpace c = false :=
    fun c hc =>
      getLast_dropTrailing_not_space l c (getLast_dropWhile_eq pySpace _ c hc)
  cases hh : (pyStrip l).head? with
  | none =>
    cases hg : (pyStrip l).getLast? with
    | none => simp [pyTrimmed, hh, hg]
    | some c => simp [pyTrimmed, hh, hg, h2 c hg]
  | some c =>
    cases hg : (pyStrip l).getLast? with
    | none => simp [pyTrimmed, hh, hg, h1 c hh]
    | some c2 => simp [pyTrimmed, hh, hg, h1 c hh, h2 c2 hg]

/-- Claim C7, amended: for every input string `clean_wrapped_text` replaces
every newline by a space and trims whitespace from both ends, and -- provided
the newline-replaced input contains no run of 17 or more consecutive
spaces -- every run of consecutive spaces in the result is collapsed to a
single space (each of the four replace passes halves a run, so only runs of
up to 16 spaces fully collapse); the spec example `"Some\n  wrapped   text"`
normalizes to `"Some wrapped text"`. -/
theorem clean_wrapped_text_spec (s : String) :
    hasNewline (clean_wrapped_text s).data = false ∧
    pyTrimmed (clean_wrapped_text s).data = true ∧
    (hasSpaceRun 17 (replaceNewlines s.data) = false →
      hasSpaceRun 2 (clean_wrapped_text s).data = false) ∧
    clean_wrapped_text "Some\n  wrapped   text" = "Some wrapped text" := by
  refine ⟨clean_no_newline s, pyTrimmed_pyStrip _, ?_, by decide⟩
  intro h
  by_contra hcon
  rw [Bool.not_eq_false] at hcon
  have h2 : hasSpaceRun 2 (pyStrip (collapseOnce (collapseOnce (collapseOnce
      (collapseOnce (replaceNewlines s.data)))))) = true := hcon
  have h4 := hasSpaceRun_pyStrip _ 2 h2
  have h17 := hasSpaceRun_two_of_four _ h4
  rw [h] at h17
  exact Bool.false_ne_true h17

/-- Witness for `clean_wrapped_text_spec`: at the concrete input
`"x\n  y"` the run hypothesis holds and the result has no double space. -/
theorem clean_wrapped_text_spec_witness :
    hasSpaceRun 2 (clean_wrapped_text "x\n  y").data = false :=
  (clean_wrapped_text_spec "x\n  y").2.2.1 (by decide)

/-- Claim C7 counterexample: on an input whose space run is 17 long
(`"a"` ++ 17 spaces ++ `"b"`), the cleanup returns `"a  b"`: a run of two
consecutive spaces survives in the result, refuting the claim that every run
of consecutive spaces is collapsed to a single space for every input. -/
theorem clean_wrapped_text_counterexample :
    clean_wrapped_text "a                 b" = "a  b" ∧
    hasSpaceRun 2 (clean_wrapped_text "a                 b").data = true := by
  exact ⟨by decide, by decide⟩


/-! ### Lemmas about the formatter -/

theorem mem_insertDesc (p : Entry) (l : List Entry) :
    ∀ x, x ∈ insertDesc p l ↔ x = p ∨ x ∈ l := by
  induction l with
  | nil => intro x; simp [insertDesc]
  | cons q qs ih =>
    intro x
    rw [insertDesc]
    by_cases hq : q.published ≤ p.published
    · rw [if_pos hq]
      simp [List.mem_cons]
    · rw [if_neg hq]
      simp [List.mem_cons, ih x]
      tauto

theorem mem_sortByPublishedDesc (l : List Entry) :
    ∀ x, x ∈ sortByPublishedDesc l ↔ x ∈ l := by
  induction l with
  | nil => intro x; simp [sortByPublishedDesc]
  | cons p ps ih =>
    intro x
    rw [sortByPublishedDesc, mem_insertDesc]
    simp [List.mem_cons, ih x]

theorem pairwise_insertDesc (p : Entry) (l : List Entry)
    (h : List.Pairwise (fun a b => b.published ≤ a.published) l) :
    List.Pairwise (fun a b => b.published ≤ a.published) (insertDesc p l) := by
  induction l with
  | nil => simp [insertDesc]
  | cons q qs ih =>
    rw [insertDesc]
    rw [List.pairwise_cons] at h
    by_cases hq : q.published ≤ p.published
    · rw [if_pos hq]
      apply List.Pairwise.cons
      · intro y hy
        rcases List.mem_cons.mp hy with rfl | hy
        · exact hq
        · exact le_trans (h.1 y hy) hq
      · exact List.Pairwise.cons h.1 h.2
    · rw [if_neg hq]
      apply List.Pairwise.cons
      · intro y hy
        rcases (mem_insertDesc p qs y).mp hy with rfl | hy
        · omega
        · exact h.1 y hy
      · exact ih h.2

theorem pairwise_sortByPublishedDesc (l : List Entry) :
    List.Pairwise (fun a b => b.published ≤ a.published)
      (sortByPublishedDesc l) := by
  induction l with
  | nil => simp [sortByPublishedDesc]
  | cons p ps ih => exact pairwise_insertDesc p _ ih

theorem filter_insertDesc (q : Entry → Bool) (p : Entry) (l : List Entry)
    (hq : ∀ x, q x = true → q p = true → x.published = p.published) :
    (insertDesc p l).filter q = if q p then p :: l.filter q else l.filter q := by
  induction l with
  | nil => by_cases hp : q p <;> simp [insertDesc, List.filter_cons, hp]
  | cons r rs ih =>
    rw [insertDesc]
    by_cases hr : r.published ≤ p.published
    · rw [if_pos hr]
      by_cases hp : q p <;> simp [List.filter_cons, hp]
    · rw [if_neg hr]
      by_cases hrq : q r
      · by_cases hp : q p
        · have := hq r hrq hp
          omega
        · simp [List.filter_cons, hrq, hp, ih]
      · by_cases hp : q p <;> simp [List.filter_cons, hrq, hp, ih]

theorem filter_sortByPublishedDesc (q : Entry → Bool)
    (hq : ∀ x y, q x = true → q y = true → x.published = y.published) :
    ∀ l, (sortByPublishedDesc l).filter q = l.filter q := by
  intro l
  induction l with
  | nil => rfl
  | cons p ps ih =>
    rw [sortByPublishedDesc, filter_insertDesc q p _ fun x hx hp => hq x p hx hp]
    by_cases hp : q p <;> simp [List.filter_cons, hp, ih]

theorem mem_renderedPapers (papers : List Entry) (sd ed : Int) (p : Entry) :
    p ∈ renderedPapers papers sd ed ↔
      p ∈ papers ∧ sd ≤ p.updated ∧ p.updated < ed := by
  rw [renderedPapers, List.mem_filter, mem_sortByPublishedDesc]
  simp [inReportWindow]

theorem pairwise_renderedPapers (papers : List Entry) (sd ed : Int) :
    List.Pairwise (fun a b => b.published ≤ a.published)
      (renderedPapers papers sd ed) :=
  List.Pairwise.filter _ (pairwise_sortByPublishedDesc papers)

/-! ### Lemmas about the fetcher -/

theorem page_take_append (entries : List Entry) (targets : List String)
    (per i : Nat) :
    (entries.take (i * per)).filter (matchesTargets targets) ++
      (pageOf entries per i).filter (matchesTargets targets) =
      (entries.take ((i + 1) * per)).filter (matchesTargets targets) := by
  rw [pageOf, ← List.filter_append]
  congr 1
  rw [show (i + 1) * per = i * per + per by ring, List.take_add]

theorem mem_of_getLast?_eq {α : Type} {l : List α} {a : α}
    (h : l.getLast? = some a) : a ∈ l := by
  obtain ⟨hne, rfl⟩ := List.mem_getLast?_eq_getLast h
  exact List.getLast_mem hne

theorem fetchLoop_ok_characterization (entries : List Entry)
    (targets : List String) (sd : Int) (per : Nat) :
    ∀ (fuel i : Nat) (acc papers : List Entry) (n : Nat),
      acc = (entries.take (i * per)).filter (matchesTargets targets) →
      fetchLoop entries targets sd per fuel i acc = .ok papers n →
      i < n ∧
      papers = (entries.take (n * per)).filter (matchesTargets targets) ∧
      ∃ last, papers.getLast? = some last ∧ last.updated < sd := by
  intro fuel
  induction fuel with
  | zero =>
    intro i acc papers n _ h
    exact absurd h (by simp [fetchLoop])
  | succ f ih =>
    intro i acc papers n hacc h
    rw [fetchLoop] at h
    have hacc2 : acc ++ (pageOf entries per i).filter (matchesTargets targets) =
        (entries.take ((i + 1) * per)).filter (matchesTargets targets) := by
      rw [hacc]
      exact page_take_append entries targets per i
    rw [hacc2] at h
    split at h
    · exact absurd h (by simp)
    · rename_i last hlast
      split at h
      · rename_i hlt
        cases h
        exact ⟨by omega, rfl, last, hlast, hlt⟩
      · rename_i hlt
        obtain ⟨hn, hp, hl⟩ := ih (i + 1) _ papers n rfl h
        exact ⟨by omega, hp, hl⟩

/-! ### Concrete feeds used in witnesses and counterexamples -/

/-- A matching entry updated on day 5. -/
def wEnt1 : Entry := ⟨[], "w1", 5, 5, ["q-fin.PR"], "", ""⟩

/-- A matching entry updated on day 1 (below the cutoff used in the runs). -/
def wEnt2 : Entry := ⟨[], "w2", 1, 1, ["q-fin.PR"], "", ""⟩

/-- Feed entry in the target category, updated day 5. -/
def dA5 : Entry := ⟨[], "a5", 5, 5, ["catA"], "", ""⟩

/-- Feed entry in the target category, updated day 4. -/
def dA4 : Entry := ⟨[], "a4", 4, 4, ["catA"], "", ""⟩

/-- Feed entry in a non-target category, updated day 3. -/
def dB3 : Entry := ⟨[], "b3", 3, 3, ["catB"], "", ""⟩

/-- Feed entry in a non-target category, updated day 1. -/
def dB1 : Entry := ⟨[], "b1", 1, 1, ["catB"], "", ""⟩

/-- Feed entry in the target category, updated day 1. -/
def dA1 : Entry := ⟨[], "a1", 1, 1, ["catA"], "", ""⟩

/-- A five-entry feed whose second page (page size 2) contains no entry in
the target category `catA`. -/
def demo4 : List Entry := [dA5, dA4, dB3, dB1, dA1]

/-- An entry in a non-target category only. -/
def dBOnly : Entry := ⟨[], "bO", 5, 5, ["catB"], "", ""⟩

/-- Target-category entry, updated day 0 (below cutoff 2). -/
def cA0 : Entry := ⟨[], "a0", 0, 0, ["catA"], "", ""⟩

/-- Claim C1, amended: on a feed sorted descending by update date, a run of
the fetcher on a non-empty target set that returns normally yields a list in
which every record's category set intersects the target set, and which
contains every served record that both matches the target set and has
`updated_date` on or after `start_date`.  (The returned list may additionally
contain matching records below `start_date` coming from the final fetched
page: the record that triggers the break is appended before the check.) -/
theorem retrieve_arxiv_data_sound_complete (entries : List Entry)
    (targets : List String) (sd : Int) (per fuel : Nat)
    (papers : List Entry) (n : Nat)
    (_hne : targets ≠ [])
    (hsorted : List.Pairwise (fun a b => b.updated ≤ a.updated) entries)
    (hok : retrieve_arxiv_data entries targets sd per fuel = .ok papers n) :
    (∀ p ∈ papers, matchesTargets targets p = true) ∧
    (∀ e ∈ entries, matchesTargets targets e = true → sd ≤ e.updated →
      e ∈ papers) := by
  obtain ⟨hn, hpapers, last, hlast, hlt⟩ :=
    fetchLoop_ok_characterization entries targets sd per fuel 0 [] papers n
      (by simp) hok
  constructor
  · intro p hp
    rw [hpapers] at hp
    exact (List.mem_filter.mp hp).2
  · intro e he hm hsd
    rw [hpapers]
    have hsplit : entries = entries.take (n * per) ++ entries.drop (n * per) :=
      (List.take_append_drop _ _).symm
    rw [hsplit] at he hsorted
    rcases List.mem_append.mp he with h1 | h2
    · exact List.mem_filter.mpr ⟨h1, hm⟩
    · exfalso
      have hlastmem : last ∈ entries.take (n * per) := by
        have hm2 := mem_of_getLast?_eq hlast
        rw [hpapers] at hm2
        exact (List.mem_filter.mp hm2).1
      have hpw := List.pairwise_append.mp hsorted
      have := hpw.2.2 last hlastmem e h2
      omega

/-- Witness for `retrieve_arxiv_data_sound_complete` at a concrete two-entry
feed with cutoff 3: the run returns normally and the conclusions hold. -/
theorem retrieve_arxiv_data_sound_complete_witness :
    (∀ p ∈ [wEnt1, wEnt2], matchesTargets ["q-fin.PR"] p = true) ∧
    (∀ e ∈ [wEnt1, wEnt2], matchesTargets ["q-fin.PR"] e = true →
      (3 : Int) ≤ e.updated → e ∈ [wEnt1, wEnt2]) :=
  retrieve_arxiv_data_sound_complete [wEnt1, wEnt2] ["q-fin.PR"] 3 100 5
    [wEnt1, wEnt2] 1 (by decide) (by decide) (by decide)

/-- Claim C1 counterexample: with targets `{q-fin.PR}` and `start_date = 3`,
the fetcher returns a list containing `wEnt2`, whose `updated_date` is
`1 < 3`.  This refutes the claim that every record in the returned list has
`updated_date` on or after `start_date`. -/
theorem retrieve_arxiv_data_start_date_counterexample :
    retrieve_arxiv_data [wEnt1, wEnt2] ["q-fin.PR"] 3 100 5 =
      .ok [wEnt1, wEnt2] 1 ∧
    wEnt2 ∈ [wEnt1, wEnt2] ∧ wEnt2.updated < 3 := by
  exact ⟨by decide, by decide, by decide⟩

/-- Claim C2: the break test at line 66 reads `arxiv_papers[-1]`, the most
recent matching record accumulated overall.  First conjunct: whenever no
entry of the first page matches the target set, the accumulator is empty at
the first break test and the fetcher raises (`IndexError`) instead of
returning.  Remaining conjuncts: on the concrete feed `demo4`, page 1
contributes zero matching entries and its own last raw entry is already
below the cutoff, yet the run continues (its termination check saw the
accumulated record `dA4` instead) and requests a third page. -/
theorem fetch_crash_on_unmatched_first_page :
    (∀ (entries : List Entry) (targets : List String) (sd : Int)
      (per fuel : Nat),
      (∀ e ∈ pageOf entries per 0, matchesTargets targets e = false) →
      retrieve_arxiv_data entries targets sd per (fuel + 1) = .indexError) ∧
    retrieve_arxiv_data demo4 ["catA"] 2 2 9 = .ok [dA5, dA4, dA1] 3 ∧
    (pageOf demo4 2 1).filter (matchesTargets ["catA"]) = [] ∧
    (pageOf demo4 2 1).getLast? = some dB1 ∧ dB1.updated < 2 := by
  refine ⟨?_, by decide, by decide, by decide, by decide⟩
  intro entries targets sd per fuel hnone
  have hfil : (pageOf entries per 0).filter (matchesTargets targets) = [] := by
    simp only [List.filter_eq_nil_iff]
    intro a ha
    simp [hnone a ha]
  rw [retrieve_arxiv_data, fetchLoop, hfil]
  simp

/-- Witness for `fetch_crash_on_unmatched_first_page`: a feed whose single
entry matches no target makes the fetcher raise. -/
theorem fetch_crash_on_unmatched_first_page_witness :
    retrieve_arxiv_data [dBOnly] ["catA"] 0 100 3 = .indexError :=
  fetch_crash_on_unmatched_first_page.1 [dBOnly] ["catA"] 0 100 2 (by decide)

/-- Claim C3, amended: pagination stops exactly when the most recently
accumulated *matching* record (not the page's own last entry) has
`updated_date < start_date`; on a descending-sorted feed this still
guarantees that every entry beyond the requested pages is below
`start_date`, so no in-window data is missed. -/
theorem retrieve_stop_condition (entries : List Entry) (targets : List String)
    (sd : Int) (per fuel : Nat) (papers : List Entry) (n : Nat)
    (hsorted : List.Pairwise (fun a b => b.updated ≤ a.updated) entries)
    (hok : retrieve_arxiv_data entries targets sd per fuel = .ok papers n) :
    ∃ last, papers.getLast? = some last ∧ last.updated < sd ∧
      ∀ e ∈ entries.drop (n * per), e.updated < sd := by
  obtain ⟨hn, hpapers, last, hlast, hlt⟩ :=
    fetchLoop_ok_characterization entries targets sd per fuel 0 [] papers n
      (by simp) hok
  refine ⟨last, hlast, hlt, ?_⟩
  intro e he
  have hsplit : entries = entries.take (n * per) ++ entries.drop (n * per) :=
    (List.take_append_drop _ _).symm
  rw [hsplit] at hsorted
  have hlastmem : last ∈ entries.take (n * per) := by
    have hm2 := mem_of_getLast?_eq hlast
    rw [hpapers] at hm2
    exact (List.mem_filter.mp hm2).1
  have hpw := List.pairwise_append.mp hsorted
  have := hpw.2.2 last hlastmem e he
  omega

/-- Witness for `retrieve_stop_condition` at the concrete two-entry feed. -/
theorem retrieve_stop_condition_witness :
    ∃ last, ([wEnt1, wEnt2] : List Entry).getLast? = some last ∧
      last.updated < 3 ∧
      ∀ e ∈ ([wEnt1, wEnt2] : List Entry).drop (1 * 100), e.updated < 3 :=
  retrieve_stop_condition [wEnt1, wEnt2] ["q-fin.PR"] 3 100 5 [wEnt1, wEnt2] 1
    (by decide) (by decide)

/-- Claim C3 counterexample: on the feed `[dA5, dB1, cA0]` with page size 2,
targets `{catA}` and `start_date = 2`, page 0's last raw entry (`dB1`,
updated day 1) is already below `start_date`, yet the fetcher requests a
second page (the run returns with 2 pages requested, and the record `cA0`
from page 1 is in the result).  This refutes "once the last entry of a page
is below `start_date`, no further page is requested". -/
theorem retrieve_page_last_counterexample :
    (pageOf [dA5, dB1, cA0] 2 0).getLast? = some dB1 ∧ dB1.updated < 2 ∧
    retrieve_arxiv_data [dA5, dB1, cA0] ["catA"] 2 2 5 = .ok [dA5, cA0] 2 := by
  exact ⟨by decide, by decide, by decide⟩

/-- Example paper originally published (and updated) 2024-01-01. -/
def exJan : Entry := ⟨[], "jan", 20240101, 20240101, [], "", ""⟩

/-- Example paper originally published (and updated) 2024-03-01. -/
def exMar : Entry := ⟨[], "mar", 20240301, 20240301, [], "", ""⟩

/-- Example paper originally published (and updated) 2024-02-01. -/
def exFeb : Entry := ⟨[], "feb", 20240201, 20240201, [], "", ""⟩

/-- Two distinct papers sharing the same `published` date (day 5). -/
def tieA : Entry := ⟨[], "tieA", 5, 5, [], "", ""⟩

/-- Second paper with the same `published` date as `tieA`. -/
def tieB : Entry := ⟨[], "tieB", 5, 5, [], "", ""⟩

/-- Claim C4: for every accumulated paper list, a paper contributes blocks to
the rendered markdown document exactly when
`start_date <= updated_date < end_date`; in particular `updated_date =
end_date` is excluded and `updated_date = start_date` is included (when the
window is non-empty), regardless of what the fetcher returned. -/
theorem markdown_window_iff :
    (∀ (papers : List Entry) (sd ed : Int) (p : Entry),
      p ∈ renderedPapers papers sd ed ↔
        p ∈ papers ∧ sd ≤ p.updated ∧ p.updated < ed) ∧
    (∀ (papers : List Entry) (sd ed : Int) (p : Entry), p.updated = ed →
      p ∉ renderedPapers papers sd ed) ∧
    (∀ (papers : List Entry) (sd ed : Int) (p : Entry),
      p ∈ papers → p.updated = sd → sd < ed →
      p ∈ renderedPapers papers sd ed) := by
  refine ⟨fun papers sd ed p => mem_renderedPapers papers sd ed p, ?_, ?_⟩
  · intro papers sd ed p hp hmem
    have := (mem_renderedPapers papers sd ed p).mp hmem
    omega
  · intro papers sd ed p hmem hu hlt
    exact (mem_renderedPapers papers sd ed p).mpr ⟨hmem, by omega⟩

/-- Witness for `markdown_window_iff`: a paper whose `updated_date` equals
the window's `end_date` is excluded from the rendered list. -/
theorem markdown_window_iff_witness :
    tieA ∉ renderedPapers [tieA] 0 5 :=
  markdown_window_iff.2.1 [tieA] 0 5 tieA (by decide)

/-- Claim C8, amended: the papers included in the rendered document appear in
(non-strict) descending order of `published_date` -- two included papers with
equal `published_date` values stay in input order, so the order is not
strict in general -- and on the spec's example (publication dates
2024-01-01, 2024-03-01, 2024-02-01) the rendered order is
2024-03-01, 2024-02-01, 2024-01-01. -/
theorem renderedPapers_desc_published :
    (∀ (papers : List Entry) (sd ed : Int),
      List.Pairwise (fun a b : Entry => b.published ≤ a.published)
        (renderedPapers papers sd ed)) ∧
    (renderedPapers [exJan, exMar, exFeb] 20240101 20240401).map
      Entry.published = [20240301, 20240201, 20240101] := by
  exact ⟨fun papers sd ed => pairwise_renderedPapers papers sd ed, by decide⟩

/-- Claim C8 counterexample: two distinct papers with equal
`published_date`, both inside the window, are rendered in input order, which
is not *strictly* descending in `published_date`. -/
theorem renderedPapers_not_strictly_desc :
    renderedPapers [tieA, tieB] 0 10 = [tieA, tieB] ∧
    tieA.published = tieB.published ∧ tieA ≠ tieB ∧
    ¬ List.Pairwise (fun a b : Entry => b.published < a.published)
      (renderedPapers [tieA, tieB] 0 10) := by
  refine ⟨by decide, by decide, by decide, ?_⟩
  intro h
  rw [show renderedPapers [tieA, tieB] 0 10 = [tieA, tieB] from by decide] at h
  rw [List.pairwise_cons] at h
  have := h.1 tieB (by decide)
  simp [tieA, tieB] at this

/-- Claim C9: the formatter's ordering is stable on ties -- for every input
list and every date `d`, the included papers with `published_date = d` appear
in the rendered list exactly in the order in which they appear in the input
(fetch-accumulation) list. -/
theorem renderedPapers_stable_ties (papers : List Entry) (sd ed d : Int) :
    (renderedPapers papers sd ed).filter (fun p => p.published == d) =
      papers.filter fun p => p.published == d && inReportWindow sd ed p := by
  rw [renderedPapers, List.filter_filter]
  exact filter_sortByPublishedDesc _
    (fun x y hx hy => by
      have hx2 : x.published = d := by
        have := (Bool.and_eq_true_iff.mp hx).1
        simpa using this
      have hy2 : y.published = d := by
        have := (Bool.and_eq_true_iff.mp hy).1
        simpa using this
      omega) papers

/-- A paper updated on day 6 = `(start_end_dates 10).2` (the previous
Sunday when today is day 10, a Thursday in the day-number convention). -/
def pEnd : Entry := ⟨[], "end", 6, 6, [], "", ""⟩

/-- Claim C10: with both date flags absent, the default window sets
`end_date` to the most recent Sunday strictly before today (day number
`≡ 6 (mod 7)`, less than today, at most 7 days back) and `start_date` to
the Monday six days earlier; the formatter's strict upper bound excludes a
paper updated on that Sunday, so the report covers exactly the Monday
through Saturday of the previous ISO week; and `main` uses this default
whenever a date flag is missing. -/
theorem default_window_previous_week (today : Int) :
    ((start_end_dates today).2 % 7 = 6 ∧
     (start_end_dates today).2 < today ∧
     today - (start_end_dates today).2 ≤ 7 ∧
     (start_end_dates today).1 = (start_end_dates today).2 - 6 ∧
     (start_end_dates today).1 % 7 = 0) ∧
    (∀ (papers : List Entry) (p : Entry),
      p.updated = (start_end_dates today).2 →
      p ∉ renderedPapers papers (start_end_dates today).1
        (start_end_dates today).2) ∧
    (∀ u : Int,
      ((start_end_dates today).1 ≤ u ∧ u < (start_end_dates today).2) ↔
      ((start_end_dates today).2 - 6 ≤ u ∧
        u ≤ (start_end_dates today).2 - 1)) ∧
    resolveDates none none today = start_end_dates today := by
  have h2 : (start_end_dates today).2 = today - (today % 7 + 1) := rfl
  have h1 : (start_end_dates today).1 = today - (today % 7 + 1) - 6 := rfl
  refine ⟨?_, ?_, ?_, rfl⟩
  · rw [h1, h2]
    omega
  · intro papers p hp hmem
    have hw := (mem_renderedPapers papers _ _ p).mp hmem
    rw [h2] at hp
    rw [h1, h2] at hw
    omega
  · intro u
    rw [h1, h2]
    constructor <;> intro <;> omega

/-- Witness for `default_window_previous_week` with today = day 10: the
default end date is day 6 (a Sunday) and a paper updated that day is
excluded from the rendered report. -/
theorem default_window_previous_week_witness :
    pEnd ∉ renderedPapers [pEnd] (start_end_dates 10).1
      (start_end_dates 10).2 :=
  (default_window_previous_week 10).2.1 [pEnd] pEnd (by decide)

/-- Entry matching `catA`, updated day -1 (always inside a `[0, 10)` run). -/
def wNeg : Entry := ⟨[], "n", -1, -1, ["catA"], "", ""⟩

/-- Reddit configuration with all six fields populated. -/
def redditFull : RedditData :=
  ⟨some "app", some "id", some "sec", some "user", some "pw", some "sub"⟩

/-- Reddit configuration whose `app_secret` is the empty string (supplied
but empty); the other five fields are populated. -/
def redditEmptyField : RedditData :=
  ⟨some "app", some "id", some "", some "user", some "pw", some "sub"⟩

/-- Reddit configuration with five fields populated and `subreddit` null. -/
def redditMissingField : RedditData :=
  ⟨some "app", some "id", some "sec", some "user", some "pw", none⟩

/-- Claim C5, amended: on a run whose fetch succeeds, `main` attempts the
token exchange iff every one of the six reddit fields is non-null (`all(v is
not None ...)` at line 160); when any field is null the run skips publishing
without error, never contacts the token endpoint, and still writes the local
file.  An empty string counts as present: only `None` disables publishing. -/
theorem main_publish_activation (w : World) (entries : List Entry)
    (targets : List String) (lookups : List (String × String))
    (reddit : RedditData) (sa ea : Option Int) (today : Int) (fuel : Nat)
    (papers : List Entry) (n : Nat)
    (hok : retrieve_arxiv_data entries targets
      (resolveDates sa ea today).1 100 fuel = .ok papers n) :
    ((mainRun w entries targets lookups reddit sa ea today fuel).tokenRequested
        = true ↔ allRedditPresent reddit = true) ∧
    (allRedditPresent reddit = false →
      mainRun w entries targets lookups reddit sa ea today fuel =
        ⟨false, false,
          some (fileName (resolveDates sa ea today).1
              (resolveDates sa ea today).2,
            (markdown_text papers lookups (resolveDates sa ea today).1
              (resolveDates sa ea today).2).2),
          false⟩) := by
  rw [mainRun]
  simp only [hok]
  cases hall : allRedditPresent reddit with
  | false => simp
  | true => cases w.authOk <;> cases w.submitOk <;> simp

/-- Witness for `main_publish_activation`: with `subreddit` null the run
does not contact the token endpoint and still writes the file. -/
theorem main_publish_activation_witness :
    ((mainRun ⟨true, true⟩ [wNeg] ["catA"] [] redditMissingField (some 0)
        (some 10) 0 5).tokenRequested = true ↔
      allRedditPresent redditMissingField = true) ∧
    (allRedditPresent redditMissingField = false →
      mainRun ⟨true, true⟩ [wNeg] ["catA"] [] redditMissingField (some 0)
          (some 10) 0 5 =
        ⟨false, false,
          some (fileName (resolveDates (some 0) (some 10) 0).1
              (resolveDates (some 0) (some 10) 0).2,
            (markdown_text [wNeg] [] (resolveDates (some 0) (some 10) 0).1
              (resolveDates (some 0) (some 10) 0).2).2),
          false⟩) :=
  main_publish_activation ⟨true, true⟩ [wNeg] ["catA"] [] redditMissingField
    (some 0) (some 10) 0 5 [wNeg] 1 (by decide)

/-- Claim C5 counterexample: with `app_secret` supplied as the *empty
string* (and the other five fields populated) the run still attempts the
token exchange, refuting the claim that an empty field skips publishing:
the check at line 160 tests only `is not None`. -/
theorem main_empty_credential_counterexample :
    redditEmptyField.app_secret = some "" ∧
    (mainRun ⟨true, true⟩ [wNeg] ["catA"] [] redditEmptyField (some 0)
      (some 10) 0 5).tokenRequested = true := by
  exact ⟨by decide, by decide⟩

/-- Claim C6, amended: on a run that reaches the formatter, the markdown
file `arxiv_submissions_<start_date>_<end_date>.md` is written exactly when
the publish stage does not raise -- that is, when publishing is skipped
(missing credentials) or both publisher calls succeed.  When the token
exchange or the post submission fails, the uncaught exception aborts `main`
at lines 160-169, *before* the file write at lines 173-176, so no file is
written. -/
theorem main_file_write (w : World) (entries : List Entry)
    (targets : List String) (lookups : List (String × String))
    (reddit : RedditData) (sa ea : Option Int) (today : Int) (fuel : Nat)
    (papers : List Entry) (n : Nat)
    (hok : retrieve_arxiv_data entries targets
      (resolveDates sa ea today).1 100 fuel = .ok papers n) :
    (mainRun w entries targets lookups reddit sa ea today fuel).fileWritten =
      (if allRedditPresent reddit && !(w.authOk && w.submitOk) then none
       else some (fileName (resolveDates sa ea today).1
           (resolveDates sa ea today).2,
         (markdown_text papers lookups (resolveDates sa ea today).1
           (resolveDates sa ea today).2).2)) := by
  rw [mainRun]
  simp only [hok]
  cases hall : allRedditPresent reddit with
  | false => simp
  | true => cases w.authOk <;> cases w.submitOk <;> simp

/-- Witness for `main_file_write`: with full credentials and both publisher
calls succeeding, the file is written with the expected name and contents. -/
theorem main_file_write_witness :
    (mainRun ⟨true, true⟩ [wNeg] ["catA"] [] redditFull (some 0) (some 10)
        0 5).fileWritten =
      (if allRedditPresent redditFull && !((true : Bool) && (true : Bool))
       then none
       else some (fileName (resolveDates (some 0) (some 10) 0).1
           (resolveDates (some 0) (some 10) 0).2,
         (markdown_text [wNeg] [] (resolveDates (some 0) (some 10) 0).1
           (resolveDates (some 0) (some 10) 0).2).2)) :=
  main_file_write ⟨true, true⟩ [wNeg] ["catA"] [] redditFull (some 0)
    (some 10) 0 5 [wNeg] 1 (by decide)

/-- Claim C6 counterexample: with all six reddit fields populated but a
failing token exchange, the run aborts and no file is written, refuting
"the markdown file is written unconditionally, including when the token
exchange fails". -/
theorem main_no_file_on_auth_failure_counterexample :
    allRedditPresent redditFull = true ∧
    (mainRun ⟨false, true⟩ [wNeg] ["catA"] [] redditFull (some 0) (some 10)
      0 5).fileWritten = none ∧
    (mainRun ⟨false, true⟩ [wNeg] ["catA"] [] redditFull (some 0) (some 10)
      0 5).fatal = true := by
  exact ⟨by decide, by decide, by decide⟩
